import Mathlib

/-!
Verification of the rbr repository's document-segmentation engine
(src/topic.py) and TODO grepper (src/todo.py), as a shallow embedding.

Conventions of the embedding:
* a file's contents are the list of raw line strings that Python's
  readlines returns (line terminators, when present, are whitespace and
  are removed by the strip that topic.py applies before interpreting a
  line, so they only matter for body capture);
* Python's str.strip / str.lstrip are modelled over the ASCII whitespace
  characters (space, tab, newline, carriage return, vertical tab, form
  feed), which covers every character the scanned syntax can contain;
* datetime.strptime with format "%Y-%m-%d" is modelled by parseDate
  below: exactly four year digits, one or two month digits (value 1..12),
  one or two day digits (value bounded by the Gregorian month length),
  nothing else in the string; ASCII digits only;
* printing to stderr is modelled by an explicit diagnostics list, and
  the early return on an include directive by a halt flag.
-/

namespace Rbr

/-- ASCII whitespace, the characters Python's default strip removes. -/
def isPySpace (c : Char) : Bool :=
  c = ' ' || c = '\t' || c = '\n' || c = '\r' || c = Char.ofNat 11 || c = Char.ofNat 12

/-- Python str.strip(): drop whitespace from both ends. -/
def pyStrip (s : String) : String :=
  ⟨((s.data.dropWhile isPySpace).reverse.dropWhile isPySpace).reverse⟩

/-- Python str.lstrip(): drop whitespace from the left end. -/
def pyLstrip (s : String) : String :=
  ⟨s.data.dropWhile isPySpace⟩

/-- Python line.strip(chr(0xFEFF)): drop byte-order marks from both ends. -/
def stripBOM (s : String) : String :=
  ⟨((s.data.dropWhile (· = Char.ofNat 0xFEFF)).reverse.dropWhile (· = Char.ofNat 0xFEFF)).reverse⟩

/-- Python s.startswith(p), over the characters of the strings. -/
def strStarts (s p : String) : Bool :=
  p.data.isPrefixOf s.data

/-- Python s[n:], dropping the first n characters. -/
def strDrop (s : String) (n : Nat) : String :=
  ⟨s.data.drop n⟩

/-- Python len(s) in characters. -/
def strLen (s : String) : Nat :=
  s.data.length

/-- ASCII decimal digit test. -/
def isDigit (c : Char) : Bool :=
  '0' ≤ c && c ≤ '9'

/-- Numeric value of a list of ASCII digits, most significant first. -/
def digitsToNat (l : List Char) : Nat :=
  l.foldl (fun n c => n * 10 + (c.toNat - 48)) 0

/-- Splitting a character list at dash characters, as Python's re-based
strptime effectively does for the format "%Y-%m-%d". -/
def splitDashAux : List Char → List Char → List (List Char)
  | [], acc => [acc.reverse]
  | c :: cs, acc =>
    if c = '-' then acc.reverse :: splitDashAux cs []
    else splitDashAux cs (c :: acc)

/-- Gregorian leap-year rule used by Python's datetime. -/
def isLeap (y : Nat) : Bool :=
  y % 4 = 0 && (y % 100 ≠ 0 || y % 400 = 0)

/-- Number of days in a month, as validated by datetime's constructor. -/
def daysInMonth (y m : Nat) : Nat :=
  if m = 2 then (if isLeap y then 29 else 28)
  else if m = 4 || m = 6 || m = 9 || m = 11 then 30
  else 31

/-- A calendar date as produced by datetime.strptime with "%Y-%m-%d"
(the time-of-day part is always midnight and is not represented). -/
structure Date where
  year : Nat
  month : Nat
  day : Nat
deriving DecidableEq, Repr

/-- Chronological order of dates, as datetime comparison gives it, encoded
by the usual numeric key (month and day both fit below 100). -/
def dateKey (d : Date) : Nat :=
  d.year * 10000 + d.month * 100 + d.day

/-- datetime.strptime(s, "%Y-%m-%d"): the year is exactly four digits, the
month and day one or two digits, the parts separated by single dashes with
nothing left over, and the resulting numbers must form a real calendar date
(year at least 1, month 1..12, day bounded by the month's length). -/
def parseDate (s : String) : Option Date :=
  match splitDashAux s.data [] with
  | [ys, ms, ds] =>
    if ys.length = 4 && ys.all isDigit
        && (ms.length = 1 || ms.length = 2) && ms.all isDigit
        && (ds.length = 1 || ds.length = 2) && ds.all isDigit then
      let y := digitsToNat ys
      let m := digitsToNat ms
      let d := digitsToNat ds
      if 1 ≤ y && 1 ≤ m && m ≤ 12 && 1 ≤ d && d ≤ daysInMonth y m then
        some ⟨y, m, d⟩
      else none
    else none
  | _ => none

/-- The two metadata keys of topic.py. -/
def SEGMENT_DATE : String := ":segment-date: "

/-- The revision-date metadata key of topic.py. -/
def REVDATE : String := ":revdate: "

/-- The Segment dataclass of topic.py. -/
structure Segment where
  path : String
  title : Option String
  date : Date
  lines : List String
deriving DecidableEq, Repr

/-- One diagnostic printed to stderr by put_segments: the file path, the
1-based line number, and the offending date text. -/
structure Diag where
  path : String
  lineNo : Nat
  text : String
deriving DecidableEq, Repr

/-- The per-file mutable state of put_segments: the open segment's date and
content, the resolved title, the per-file buffer tmp that commits append
to, the three comment flags, the emitted diagnostics, and a ghost counter
of date-metadata lines that parsed successfully (it influences nothing). -/
structure ExtState where
  date : Option Date
  content : List String
  title : Option String
  tmp : List Segment
  commentBlock : Bool
  commentSection : Bool
  commentSectionBlock : Bool
  diags : List Diag
  accepted : Nat
deriving DecidableEq, Repr

/-- The initial state of put_segments for one file. -/
def initSt : ExtState :=
  { date := none, content := [], title := none, tmp := [],
    commentBlock := false, commentSection := false,
    commentSectionBlock := false, diags := [], accepted := 0 }

/-- The nested commit() closure of put_segments: when a date is open,
append a Segment built from the current title, date and content to the
per-file buffer and reset date and content. -/
def commit (path : String) (s : ExtState) : ExtState :=
  match s.date with
  | some d =>
    { s with tmp := s.tmp ++ [⟨path, s.title, d, s.content⟩],
             date := none, content := [] }
  | none => s

/-- The stripped line put_segments interprets: whitespace-stripped, and on
the first line (index 0) additionally stripped of byte-order marks. -/
def effLine (i : Nat) (raw : String) : String :=
  let l := pyStrip raw
  if i = 0 then stripBOM l else l

/-- Lines 96-99 of topic.py: a line starting with four slashes toggles the
block-comment flag; otherwise a line starting with the section marker sets
the section flag. -/
def markerPhase (line : String) (s : ExtState) : ExtState :=
  if strStarts line "////" then { s with commentBlock := !s.commentBlock }
  else if strStarts line "[comment]" then { s with commentSection := true }
  else s

/-- Lines 101-120 of topic.py: comment-section handling. The returned flag
is true when the Python code executed a continue for this line (after
conditionally capturing the raw line into the open segment's content). -/
def sectionPhase (line raw : String) (s : ExtState) : ExtState × Bool :=
  if s.commentSection then
    if s.commentSectionBlock then
      if line = "--" then
        ({ s with commentSectionBlock := false, commentSection := false,
                  content := if s.date.isSome then s.content ++ [raw] else s.content },
         true)
      else (s, false)
    else
      let s1 := if line = "--" then { s with commentSectionBlock := true } else s
      if line = "" then
        ({ s1 with commentSection := false,
                   content := if s1.date.isSome then s1.content ++ [raw] else s1.content },
         true)
      else (s1, false)
  else (s, false)

/-- Lines 123-124 of topic.py: a top-level heading line captures the
remainder as the title when none has been resolved yet. -/
def titleStep (line : String) (s : ExtState) : ExtState :=
  if strStarts line "= " && s.title.isNone then
    { s with title := some (strDrop line 2) }
  else s

/-- Lines 129-137 of topic.py: on a metadata-carrying line, either commit
and open a new segment (the date parses; the ghost counter accepted goes
up) or record a diagnostic (it does not); other lines change nothing. -/
def dateStep (path pre : String) (i : Nat) (line : String) (s : ExtState) : ExtState :=
  if strStarts line pre then
    match parseDate (strDrop line (strLen pre)) with
    | some d =>
      let s2 := commit path s
      { s2 with date := some d, accepted := s2.accepted + 1 }
    | none => { s with diags := s.diags ++ [⟨path, i + 1, strDrop line (strLen pre)⟩] }
  else s

/-- Lines 122-137 of topic.py: when neither comment flag is set, capture
the title, halt the file on an include directive (the returned flag), and
process date metadata. -/
def interpPhase (path pre : String) (i : Nat) (line : String) (s : ExtState) :
    ExtState × Bool :=
  if !(s.commentBlock || s.commentSection) then
    let s1 := titleStep line s
    if strStarts line "include::" then (s1, true)
    else (dateStep path pre i line s1, false)
  else (s, false)

/-- Lines 139-140 of topic.py: when a segment is open, append the raw
(unstripped) line to its content. -/
def tailPhase (raw : String) (s : ExtState) : ExtState :=
  if s.date.isSome then { s with content := s.content ++ [raw] } else s

/-- One loop iteration of put_segments on line index i. The returned flag
is true exactly when the Python code returned out of the function because
of an include directive. -/
def lineStep (path pre : String) (i : Nat) (s : ExtState) (raw : String) :
    ExtState × Bool :=
  let line := effLine i raw
  let s1 := markerPhase line s
  match sectionPhase line raw s1 with
  | (s2, true) => (s2, false)
  | (s2, false) =>
    match interpPhase path pre i line s2 with
    | (s3, true) => (s3, true)
    | (s3, false) => (tailPhase raw s3, false)

/-- The loop of put_segments from line index i. The flag of the result is
true when the loop was abandoned by the include-directive return. -/
def runLines (path pre : String) : Nat → ExtState → List String → ExtState × Bool
  | _, s, [] => (s, false)
  | i, s, raw :: rest =>
    match lineStep path pre i s raw with
    | (s', true) => (s', true)
    | (s', false) => runLines path pre (i + 1) s' rest

/-- put_segments of topic.py: process all lines; unless the file was
abandoned on an include directive, run the final commit and append the
per-file buffer to the shared segments list. The diagnostics printed along
the way are returned alongside. -/
def put_segments (path pre : String) (lines : List String)
    (segments : List Segment) : List Segment × List Diag :=
  match runLines path pre 0 initSt lines with
  | (s, true) => (segments, s.diags)
  | (s, false) => (segments ++ (commit path s).tmp, s.diags)

/-- Comparison passed to the sort in main (line 216 of topic.py):
list.sort(key=lambda s, s.date, reverse=descending) is a stable sort under
the date order, reversed between distinct dates when descending. -/
def segLE (descending : Bool) (a b : Segment) : Bool :=
  if descending then dateKey b.date ≤ dateKey a.date
  else dateKey a.date ≤ dateKey b.date

/-- The sort of main (line 216 of topic.py) as a stable merge sort. -/
def sortSegments (descending : Bool) (l : List Segment) : List Segment :=
  List.mergeSort l (segLE descending)

/-- Whether the character list n occurs contiguously inside h, as Python's
in-operator on strings tests. -/
def listHasInfix (n : List Char) : List Char → Bool
  | [] => n.isEmpty
  | c :: rest => n.isPrefixOf (c :: rest) || listHasInfix n rest

/-- Python "TODO:" in line. -/
def containsTODO (s : String) : Bool :=
  listHasInfix "TODO:".data s.data

/-- has_todo of todo.py: left-strip the line, then check the three empty
checkbox markers and the TODO substring. The path parameter is unused, as
in the source. -/
def has_todo (path : String) (line : String) : Bool :=
  let l := pyLstrip line
  if strStarts l "* [ ]" || strStarts l ". [ ]" || strStarts l "- [ ]" then
    true
  else if containsTODO l then
    true
  else
    false

/-! Field-preservation lemmas for the phases of lineStep. -/

theorem commit_title (path : String) (s : ExtState) : (commit path s).title = s.title := by
  unfold commit; cases s.date <;> rfl

theorem commit_commentFlags (path : String) (s : ExtState) :
    (commit path s).commentBlock = s.commentBlock ∧
    (commit path s).commentSection = s.commentSection ∧
    (commit path s).commentSectionBlock = s.commentSectionBlock := by
  unfold commit; cases s.date <;> exact ⟨rfl, rfl, rfl⟩

theorem markerPhase_skip (line : String) (s : ExtState) :
    (markerPhase line s).date = s.date ∧ (markerPhase line s).content = s.content ∧
    (markerPhase line s).title = s.title ∧ (markerPhase line s).tmp = s.tmp ∧
    (markerPhase line s).diags = s.diags ∧ (markerPhase line s).accepted = s.accepted ∧
    (markerPhase line s).commentSectionBlock = s.commentSectionBlock := by
  unfold markerPhase; split_ifs <;> exact ⟨rfl, rfl, rfl, rfl, rfl, rfl, rfl⟩

theorem sectionPhase_skip (line raw : String) (s : ExtState) :
    ((sectionPhase line raw s).1).date = s.date ∧
    ((sectionPhase line raw s).1).title = s.title ∧
    ((sectionPhase line raw s).1).tmp = s.tmp ∧
    ((sectionPhase line raw s).1).diags = s.diags ∧
    ((sectionPhase line raw s).1).accepted = s.accepted ∧
    ((sectionPhase line raw s).1).commentBlock = s.commentBlock := by
  unfold sectionPhase; split_ifs <;> exact ⟨rfl, rfl, rfl, rfl, rfl, rfl⟩

theorem tailPhase_skip (raw : String) (s : ExtState) :
    (tailPhase raw s).date = s.date ∧ (tailPhase raw s).title = s.title ∧
    (tailPhase raw s).tmp = s.tmp ∧ (tailPhase raw s).diags = s.diags ∧
    (tailPhase raw s).accepted = s.accepted ∧
    (tailPhase raw s).commentBlock = s.commentBlock ∧
    (tailPhase raw s).commentSection = s.commentSection ∧
    (tailPhase raw s).commentSectionBlock = s.commentSectionBlock := by
  unfold tailPhase; split_ifs <;> exact ⟨rfl, rfl, rfl, rfl, rfl, rfl, rfl, rfl⟩

theorem titleStep_skip (line : String) (s : ExtState) :
    (titleStep line s).date = s.date ∧ (titleStep line s).content = s.content ∧
    (titleStep line s).tmp = s.tmp ∧ (titleStep line s).diags = s.diags ∧
    (titleStep line s).accepted = s.accepted ∧
    (titleStep line s).commentBlock = s.commentBlock ∧
    (titleStep line s).commentSection = s.commentSection ∧
    (titleStep line s).commentSectionBlock = s.commentSectionBlock := by
  unfold titleStep; split_ifs <;> exact ⟨rfl, rfl, rfl, rfl, rfl, rfl, rfl, rfl⟩

theorem dateStep_skip (path pre : String) (i : Nat) (line : String) (s : ExtState) :
    (dateStep path pre i line s).title = s.title ∧
    (dateStep path pre i line s).commentBlock = s.commentBlock ∧
    (dateStep path pre i line s).commentSection = s.commentSection ∧
    (dateStep path pre i line s).commentSectionBlock = s.commentSectionBlock := by
  unfold dateStep commit
  split_ifs <;>
    rcases hp : parseDate (strDrop line (strLen pre)) with _ | d <;>
    simp only [hp] <;> cases hd : s.date <;> simp_all

theorem interpPhase_commentFlags (path pre : String) (i : Nat) (line : String) (s : ExtState) :
    ((interpPhase path pre i line s).1).commentBlock = s.commentBlock ∧
    ((interpPhase path pre i line s).1).commentSection = s.commentSection ∧
    ((interpPhase path pre i line s).1).commentSectionBlock = s.commentSectionBlock := by
  unfold interpPhase
  split_ifs
  · exact ⟨(titleStep_skip line s).2.2.2.2.2.1, (titleStep_skip line s).2.2.2.2.2.2.1,
      (titleStep_skip line s).2.2.2.2.2.2.2⟩
  · refine ⟨?_, ?_, ?_⟩
    · exact ((dateStep_skip path pre i line (titleStep line s)).2.1).trans
        (titleStep_skip line s).2.2.2.2.2.1
    · exact ((dateStep_skip path pre i line (titleStep line s)).2.2.1).trans
        (titleStep_skip line s).2.2.2.2.2.2.1
    · exact ((dateStep_skip path pre i line (titleStep line s)).2.2.2).trans
        (titleStep_skip line s).2.2.2.2.2.2.2
  · exact ⟨rfl, rfl, rfl⟩

/-! Helpers about strStarts and first characters. -/

theorem data_head_of_starts {s p : String} {c : Char} {cs : List Char}
    (h : strStarts s p = true) (hp : p.data = c :: cs) : ∃ t, s.data = c :: t := by
  have hpre : p.data <+: s.data := List.isPrefixOf_iff_prefix.mp h
  obtain ⟨t, ht⟩ := hpre
  exact ⟨cs ++ t, by rw [← ht, hp]; rfl⟩

theorem not_starts_of_head {s q : String} {c d : Char} {t qs : List Char}
    (hs : s.data = c :: t) (hq : q.data = d :: qs) (hne : c ≠ d) :
    strStarts s q = false := by
  cases hval : strStarts s q with
  | false => rfl
  | true =>
    obtain ⟨u, hu⟩ := data_head_of_starts hval hq
    rw [hs] at hu
    exact absurd (List.head_eq_of_cons_eq hu) hne

/-! Compositional lemmas for single fields of lineStep. -/

theorem markerPhase_commentBlock (line : String) (s : ExtState) :
    (markerPhase line s).commentBlock =
      (if strStarts line "////" then !s.commentBlock else s.commentBlock) := by
  unfold markerPhase; split_ifs <;> rfl

theorem lineStep_commentBlock (path pre : String) (i : Nat) (s : ExtState) (raw : String) :
    ((lineStep path pre i s raw).1).commentBlock =
      (markerPhase (effLine i raw) s).commentBlock := by
  unfold lineStep
  cases h2 : sectionPhase (effLine i raw) raw (markerPhase (effLine i raw) s) with
  | mk s2 b2 =>
    have hs2 : s2.commentBlock = (markerPhase (effLine i raw) s).commentBlock := by
      have := (sectionPhase_skip (effLine i raw) raw (markerPhase (effLine i raw) s)).2.2.2.2.2
      rw [h2] at this; exact this
    cases b2 with
    | true => simp only [h2]; exact hs2
    | false =>
      cases h3 : interpPhase path pre i (effLine i raw) s2 with
      | mk s3 b3 =>
        have hs3 : s3.commentBlock = s2.commentBlock := by
          have := (interpPhase_commentFlags path pre i (effLine i raw) s2).1
          rw [h3] at this; exact this
        cases b3 with
        | true => simp only [h2, h3]; rw [hs3, hs2]
        | false =>
          simp only [h2, h3]
          rw [(tailPhase_skip raw s3).2.2.2.2.2.1, hs3, hs2]

theorem markerPhase_section_mono (line : String) (s : ExtState)
    (h : s.commentSection = true) : (markerPhase line s).commentSection = true := by
  unfold markerPhase; split_ifs <;> simp [h]

theorem lineStep_section_flags (path pre : String) (i : Nat) (s : ExtState) (raw : String)
    (hM : (markerPhase (effLine i raw) s).commentSection = true)
    (hne1 : effLine i raw ≠ "--") (hne2 : effLine i raw ≠ "") :
    ((lineStep path pre i s raw).1).commentSection = true ∧
    ((lineStep path pre i s raw).1).commentSectionBlock = s.commentSectionBlock := by
  have hMb : (markerPhase (effLine i raw) s).commentSectionBlock = s.commentSectionBlock :=
    (markerPhase_skip _ _).2.2.2.2.2.2
  have hsec : sectionPhase (effLine i raw) raw (markerPhase (effLine i raw) s) =
      (markerPhase (effLine i raw) s, false) := by
    unfold sectionPhase
    cases hb : (markerPhase (effLine i raw) s).commentSectionBlock <;>
      simp [hM, hb, hne1, hne2]
  unfold lineStep
  simp only [hsec]
  cases h3 : interpPhase path pre i (effLine i raw) (markerPhase (effLine i raw) s) with
  | mk s3 b3 =>
    have hflags := interpPhase_commentFlags path pre i (effLine i raw)
      (markerPhase (effLine i raw) s)
    rw [h3] at hflags
    cases b3 with
    | true => exact ⟨hflags.2.1.trans hM, hflags.2.2.trans hMb⟩
    | false =>
      refine ⟨?_, ?_⟩
      · rw [(tailPhase_skip raw s3).2.2.2.2.2.2.1, hflags.2.1, hM]
      · rw [(tailPhase_skip raw s3).2.2.2.2.2.2.2, hflags.2.2, hMb]

/-- C4 counterexample: in the file whose lines are four slashes and then the
section marker, the block-comment flag is active when the marker line is
processed, and the marker nevertheless sets the comment-section flag. -/
theorem comment_marker_in_block_cex :
    ((runLines "f.adoc" SEGMENT_DATE 0 initSt ["////"]).1).commentBlock = true ∧
    ((runLines "f.adoc" SEGMENT_DATE 0 initSt ["////"]).1).commentSection = false ∧
    ((runLines "f.adoc" SEGMENT_DATE 0 initSt ["////", "[comment]"]).1).commentBlock = true ∧
    ((runLines "f.adoc" SEGMENT_DATE 0 initSt ["////", "[comment]"]).1).commentSection = true :=
  ⟨by decide, by decide, by decide, by decide⟩

/-- C4, as amended: a line that starts with the section marker (and not
with four slashes) sets the comment-section flag regardless of the
block-comment flag, which put_segments never consults for this rule. -/
theorem comment_marker_sets_section (path pre : String) (i : Nat) (s : ExtState) (raw : String)
    (h1 : strStarts (effLine i raw) "////" = false)
    (h2 : strStarts (effLine i raw) "[comment]" = true) :
    ((lineStep path pre i s raw).1).commentSection = true := by
  have hne1 : effLine i raw ≠ "--" := by
    intro h; rw [h] at h2; exact absurd h2 (by decide)
  have hne2 : effLine i raw ≠ "" := by
    intro h; rw [h] at h2; exact absurd h2 (by decide)
  have hM : (markerPhase (effLine i raw) s).commentSection = true := by
    unfold markerPhase; simp [h1, h2]
  exact (lineStep_section_flags path pre i s raw hM hne1 hne2).1

/-- Witness for comment_marker_sets_section: the marker line inside an
active block comment, concretely. -/
theorem comment_marker_sets_section_witness :
    strStarts (effLine 1 "[comment]") "////" = false ∧
    strStarts (effLine 1 "[comment]") "[comment]" = true ∧
    ((lineStep "f.adoc" SEGMENT_DATE 1
        { initSt with commentBlock := true } "[comment]").1).commentSection = true :=
  ⟨by decide, by decide,
   comment_marker_sets_section "f.adoc" SEGMENT_DATE 1
     { initSt with commentBlock := true } "[comment]" (by decide) (by decide)⟩

/-- C5 counterexample: the stripped line of the raw line "////abc" is not
equal to the four-slash token, yet processing it from the initial state
toggles the block-comment flag on. -/
theorem block_toggle_cex :
    pyStrip "////abc" ≠ "////" ∧
    ((lineStep "f.adoc" SEGMENT_DATE 0 initSt "////abc").1).commentBlock = true :=
  ⟨by decide, by decide⟩

/-- C5, as amended: the block-comment flag is toggled exactly for lines
whose stripped form starts with four consecutive slash characters, whether
or not further characters follow, and is kept by every other line. -/
theorem block_toggle_startswith (path pre : String) (i : Nat) (s : ExtState) (raw : String) :
    ((lineStep path pre i s raw).1).commentBlock =
      (if strStarts (effLine i raw) "////" then !s.commentBlock else s.commentBlock) := by
  rw [lineStep_commentBlock, markerPhase_commentBlock]

/-- C9: while the comment-section body is delimited (both section flags
set), only the exact two-dash delimiter line clears the section flags; any
other line, in particular a blank one, leaves both flags set. -/
theorem section_block_delim_only (path pre : String) (i : Nat) (s : ExtState) (raw : String)
    (h1 : s.commentSection = true) (h2 : s.commentSectionBlock = true) :
    (effLine i raw = "--" →
      ((lineStep path pre i s raw).1).commentSection = false ∧
      ((lineStep path pre i s raw).1).commentSectionBlock = false) ∧
    (effLine i raw ≠ "--" →
      ((lineStep path pre i s raw).1).commentSection = true ∧
      ((lineStep path pre i s raw).1).commentSectionBlock = true) := by
  constructor
  · intro hl
    have hM : markerPhase "--" s = s := by
      unfold markerPhase
      rw [show strStarts "--" "////" = false from by decide,
          show strStarts "--" "[comment]" = false from by decide]
      simp
    have hsec : sectionPhase "--" raw s =
        ({ s with commentSectionBlock := false, commentSection := false,
                  content := if s.date.isSome then s.content ++ [raw] else s.content },
         true) := by
      unfold sectionPhase
      simp [h1, h2]
    unfold lineStep
    rw [hl]
    dsimp only
    rw [hM, hsec]
    simp
  · intro hl
    have hM : (markerPhase (effLine i raw) s).commentSection = true :=
      markerPhase_section_mono _ _ h1
    have hMb : (markerPhase (effLine i raw) s).commentSectionBlock = true :=
      ((markerPhase_skip _ _).2.2.2.2.2.2).trans h2
    have hsec : sectionPhase (effLine i raw) raw (markerPhase (effLine i raw) s) =
        (markerPhase (effLine i raw) s, false) := by
      unfold sectionPhase
      simp [hM, hMb, hl]
    unfold lineStep
    simp only [hsec]
    cases h3 : interpPhase path pre i (effLine i raw) (markerPhase (effLine i raw) s) with
    | mk s3 b3 =>
      have hflags := interpPhase_commentFlags path pre i (effLine i raw)
        (markerPhase (effLine i raw) s)
      rw [h3] at hflags
      cases b3 with
      | true => exact ⟨hflags.2.1.trans hM, hflags.2.2.trans hMb⟩
      | false =>
        refine ⟨?_, ?_⟩
        · rw [(tailPhase_skip raw s3).2.2.2.2.2.2.1, hflags.2.1, hM]
        · rw [(tailPhase_skip raw s3).2.2.2.2.2.2.2, hflags.2.2, hMb]

/-- Witness for section_block_delim_only: a blank line inside a delimited
comment section leaves both section flags set. -/
theorem section_block_delim_only_witness :
    ({ initSt with commentSection := true, commentSectionBlock := true } : ExtState).commentSection = true ∧
    ({ initSt with commentSection := true, commentSectionBlock := true } : ExtState).commentSectionBlock = true ∧
    effLine 5 "" ≠ "--" ∧
    ((lineStep "f.adoc" SEGMENT_DATE 5
        { initSt with commentSection := true, commentSectionBlock := true } "").1).commentSection = true ∧
    ((lineStep "f.adoc" SEGMENT_DATE 5
        { initSt with commentSection := true, commentSectionBlock := true } "").1).commentSectionBlock = true := by
  refine ⟨rfl, rfl, by decide, ?_⟩
  have h := (section_block_delim_only "f.adoc" SEGMENT_DATE 5
    { initSt with commentSection := true, commentSectionBlock := true } "" rfl rfl).2 (by decide)
  exact h

/-- C10: the TODO grepper's classifier returns true exactly when the line,
stripped of leading whitespace, starts with one of the three empty-checkbox
markers or contains the TODO substring; the path argument never influences
the outcome. -/
theorem has_todo_characterization (p q line : String) :
    (has_todo p line =
      ((strStarts (pyLstrip line) "* [ ]" || strStarts (pyLstrip line) ". [ ]" ||
        strStarts (pyLstrip line) "- [ ]") || containsTODO (pyLstrip line))) ∧
    has_todo p line = has_todo q line := by
  unfold has_todo
  refine ⟨?_, rfl⟩
  dsimp only
  split_ifs with ha hb <;> simp_all

/-- C7: a normal-interpretable line that carries one of the two configured
metadata keys but whose remainder does not parse as a date leaves exactly
one diagnostic (file path, 1-based line number, offending text), commits
nothing, changes neither the open date nor the title nor any comment flag,
does not halt the run, and is captured into the open segment's content
exactly as a non-metadata line would be. -/
theorem bad_date_diagnostic (path pre : String) (i : Nat) (s : ExtState) (raw : String)
    (hb : s.commentBlock = false) (hs : s.commentSection = false)
    (hpre : pre = SEGMENT_DATE ∨ pre = REVDATE)
    (hstart : strStarts (effLine i raw) pre = true)
    (hparse : parseDate (strDrop (effLine i raw) (strLen pre)) = none) :
    lineStep path pre i s raw =
      ({ s with content := if s.date.isSome then s.content ++ [raw] else s.content,
                diags := s.diags ++ [⟨path, i + 1, strDrop (effLine i raw) (strLen pre)⟩] },
       false) := by
  have hhead : ∃ t, (effLine i raw).data = ':' :: t := by
    rcases hpre with rfl | rfl
    · exact data_head_of_starts hstart rfl
    · exact data_head_of_starts hstart rfl
  obtain ⟨t, ht⟩ := hhead
  have h1 : strStarts (effLine i raw) "////" = false := not_starts_of_head ht rfl (by decide)
  have h2 : strStarts (effLine i raw) "[comment]" = false :=
    not_starts_of_head ht rfl (by decide)
  have h3 : strStarts (effLine i raw) "= " = false := not_starts_of_head ht rfl (by decide)
  have h4 : strStarts (effLine i raw) "include::" = false :=
    not_starts_of_head ht rfl (by decide)
  have hM : markerPhase (effLine i raw) s = s := by
    unfold markerPhase; rw [h1, h2]; simp
  have hsc : sectionPhase (effLine i raw) raw s = (s, false) := by
    unfold sectionPhase; simp [hs]
  have hts : titleStep (effLine i raw) s = s := by
    unfold titleStep; rw [h3]; simp
  have hds : dateStep path pre i (effLine i raw) s =
      { s with diags := s.diags ++ [⟨path, i + 1, strDrop (effLine i raw) (strLen pre)⟩] } := by
    unfold dateStep
    rw [hstart]
    simp only [if_true, eq_self_iff_true, ite_true, hparse]
  have hguard : (!(s.commentBlock || s.commentSection)) = true := by rw [hb, hs]; rfl
  have hint : interpPhase path pre i (effLine i raw) s =
      ({ s with diags := s.diags ++ [⟨path, i + 1, strDrop (effLine i raw) (strLen pre)⟩] },
       false) := by
    unfold interpPhase
    simp only [hguard, if_true, eq_self_iff_true, ite_true, h4, Bool.false_eq_true, if_false,
      ite_false, hts, hds]
  unfold lineStep
  dsimp only
  rw [hM, hsc]
  dsimp only
  rw [hint]
  dsimp only
  unfold tailPhase
  cases hd : s.date <;> simp [hd]

/-- Witness for bad_date_diagnostic: the malformed line of Scenario C on
the first line of a file. -/
theorem bad_date_diagnostic_witness :
    initSt.commentBlock = false ∧ initSt.commentSection = false ∧
    (SEGMENT_DATE = SEGMENT_DATE ∨ SEGMENT_DATE = REVDATE) ∧
    strStarts (effLine 0 ":segment-date: 2024-13-40") SEGMENT_DATE = true ∧
    parseDate (strDrop (effLine 0 ":segment-date: 2024-13-40") (strLen SEGMENT_DATE)) = none ∧
    lineStep "f.adoc" SEGMENT_DATE 0 initSt ":segment-date: 2024-13-40" =
      ({ initSt with
           content := if initSt.date.isSome then initSt.content ++ [":segment-date: 2024-13-40"]
                      else initSt.content,
           diags := initSt.diags ++
             [⟨"f.adoc", 1, strDrop (effLine 0 ":segment-date: 2024-13-40") (strLen SEGMENT_DATE)⟩] },
       false) :=
  ⟨rfl, rfl, Or.inl rfl, by decide, by decide,
   bad_date_diagnostic "f.adoc" SEGMENT_DATE 0 initSt ":segment-date: 2024-13-40"
     rfl rfl (Or.inl rfl) (by decide) (by decide)⟩

/-! Lemmas about halting runs and commit counting. -/

theorem runLines_halt_append (path pre : String) (extra : List String) :
    ∀ (lines : List String) (i : Nat) (s : ExtState),
      (runLines path pre i s lines).2 = true →
      runLines path pre i s (lines ++ extra) = runLines path pre i s lines := by
  intro lines
  induction lines with
  | nil => intro i s h; simp [runLines] at h
  | cons raw rest ih =>
    intro i s h
    rw [List.cons_append]
    unfold runLines at h ⊢
    cases hstep : lineStep path pre i s raw with
    | mk s' b =>
      rw [hstep] at h
      cases b with
      | true => simp
      | false =>
        simp only at h ⊢
        exact ih (i + 1) s' h

/-- C1 counterexample: in a file with two date lines followed by an
include directive, a segment has been committed into the per-file buffer
when the include line is reached, the run halts there, and yet the shared
result collection receives nothing: the buffered commit is lost. -/
theorem include_discards_commits_cex :
    ((runLines "f.adoc" SEGMENT_DATE 0 initSt
        [":segment-date: 2024-06-13", ":segment-date: 2024-06-14",
         "include::other.adoc[]"]).1).tmp.length = 1 ∧
    (runLines "f.adoc" SEGMENT_DATE 0 initSt
        [":segment-date: 2024-06-13", ":segment-date: 2024-06-14",
         "include::other.adoc[]"]).2 = true ∧
    (put_segments "f.adoc" SEGMENT_DATE
        [":segment-date: 2024-06-13", ":segment-date: 2024-06-14",
         "include::other.adoc[]"] []).1 = [] :=
  ⟨by decide, by decide, by decide⟩

/-- C1, as amended: when put_segments halts on a normal-interpretable
include directive, no further lines are scanned, and the file contributes
nothing to the shared result collection — the segments committed earlier
into the per-file buffer are discarded together with the open one. -/
theorem include_discards_file (path pre : String) (lines extra : List String)
    (segments : List Segment)
    (h : (runLines path pre 0 initSt lines).2 = true) :
    (put_segments path pre lines segments).1 = segments ∧
    runLines path pre 0 initSt (lines ++ extra) = runLines path pre 0 initSt lines := by
  refine ⟨?_, runLines_halt_append path pre extra lines 0 initSt h⟩
  unfold put_segments
  cases hr : runLines path pre 0 initSt lines with
  | mk s b =>
    rw [hr] at h
    simp only at h
    cases b with
    | true => simp
    | false => simp at h

/-- Witness for include_discards_file: a one-line include file appends
nothing, and appending a date line after the include changes nothing. -/
theorem include_discards_file_witness :
    (runLines "f.adoc" SEGMENT_DATE 0 initSt ["include::other.adoc[]"]).2 = true ∧
    (put_segments "f.adoc" SEGMENT_DATE ["include::other.adoc[]"] []).1 = [] ∧
    runLines "f.adoc" SEGMENT_DATE 0 initSt
        (["include::other.adoc[]"] ++ [":segment-date: 2024-06-13"]) =
      runLines "f.adoc" SEGMENT_DATE 0 initSt ["include::other.adoc[]"] :=
  ⟨by decide,
   (include_discards_file "f.adoc" SEGMENT_DATE ["include::other.adoc[]"]
     [":segment-date: 2024-06-13"] [] (by decide)).1,
   (include_discards_file "f.adoc" SEGMENT_DATE ["include::other.adoc[]"]
     [":segment-date: 2024-06-13"] [] (by decide)).2⟩

/-- The commit-counting invariant: committed segments plus the open one
account exactly for the date lines accepted so far. -/
def acceptedInv (s : ExtState) : Prop :=
  s.tmp.length + (if s.date.isSome then 1 else 0) = s.accepted

theorem acceptedInv_titleStep (line : String) (s : ExtState) (h : acceptedInv s) :
    acceptedInv (titleStep line s) := by
  unfold acceptedInv at h ⊢
  rw [(titleStep_skip line s).2.2.1, (titleStep_skip line s).1,
    (titleStep_skip line s).2.2.2.2.1]
  exact h

theorem acceptedInv_dateStep (path pre : String) (i : Nat) (line : String) (s : ExtState)
    (h : acceptedInv s) : acceptedInv (dateStep path pre i line s) := by
  unfold dateStep
  by_cases hstart : strStarts line pre = true
  · rw [if_pos hstart]
    rcases hp : parseDate (strDrop line (strLen pre)) with _ | d <;> simp only [hp]
    · unfold acceptedInv at h ⊢
      simpa using h
    · unfold acceptedInv at h ⊢
      unfold commit
      cases hd : s.date <;> rw [hd] at h <;> simp_all
  · rw [if_neg hstart]; exact h

theorem acceptedInv_interpPhase (path pre : String) (i : Nat) (line : String) (s : ExtState)
    (h : acceptedInv s) : acceptedInv ((interpPhase path pre i line s).1) := by
  unfold interpPhase
  split_ifs
  · exact acceptedInv_titleStep line s h
  · exact acceptedInv_dateStep path pre i line (titleStep line s) (acceptedInv_titleStep line s h)
  · exact h

theorem acceptedInv_markerPhase (line : String) (s : ExtState) (h : acceptedInv s) :
    acceptedInv (markerPhase line s) := by
  unfold acceptedInv at h ⊢
  rw [(markerPhase_skip line s).2.2.2.1, (markerPhase_skip line s).1,
    (markerPhase_skip line s).2.2.2.2.2.1]
  exact h

theorem acceptedInv_sectionPhase (line raw : String) (s : ExtState) (h : acceptedInv s) :
    acceptedInv ((sectionPhase line raw s).1) := by
  unfold acceptedInv at h ⊢
  rw [(sectionPhase_skip line raw s).2.2.1, (sectionPhase_skip line raw s).1,
    (sectionPhase_skip line raw s).2.2.2.2.1]
  exact h

theorem acceptedInv_tailPhase (raw : String) (s : ExtState) (h : acceptedInv s) :
    acceptedInv (tailPhase raw s) := by
  unfold acceptedInv at h ⊢
  rw [(tailPhase_skip raw s).2.2.1, (tailPhase_skip raw s).1,
    (tailPhase_skip raw s).2.2.2.2.1]
  exact h

theorem acceptedInv_lineStep (path pre : String) (i : Nat) (s : ExtState) (raw : String)
    (h : acceptedInv s) : acceptedInv ((lineStep path pre i s raw).1) := by
  unfold lineStep
  dsimp only
  have h1 := acceptedInv_markerPhase (effLine i raw) s h
  cases h2 : sectionPhase (effLine i raw) raw (markerPhase (effLine i raw) s) with
  | mk s2 b2 =>
    have hs2 : acceptedInv s2 := by
      have := acceptedInv_sectionPhase (effLine i raw) raw (markerPhase (effLine i raw) s) h1
      rw [h2] at this; exact this
    cases b2 with
    | true => simpa using hs2
    | false =>
      cases h3 : interpPhase path pre i (effLine i raw) s2 with
      | mk s3 b3 =>
        have hs3 : acceptedInv s3 := by
          have := acceptedInv_interpPhase path pre i (effLine i raw) s2 hs2
          rw [h3] at this; exact this
        cases b3 with
        | true => simp only [h2, h3]; exact hs3
        | false => simp only [h2, h3]; exact acceptedInv_tailPhase raw s3 hs3

theorem acceptedInv_runLines (path pre : String) :
    ∀ (lines : List String) (i : Nat) (s : ExtState),
      acceptedInv s → acceptedInv ((runLines path pre i s lines).1) := by
  intro lines
  induction lines with
  | nil => intro i s h; exact h
  | cons raw rest ih =>
    intro i s h
    unfold runLines
    cases hstep : lineStep path pre i s raw with
    | mk s' b =>
      have hs' : acceptedInv s' := by
        have := acceptedInv_lineStep path pre i s raw h
        rw [hstep] at this; exact this
      cases b with
      | true => simpa using hs'
      | false => simpa using ih (i + 1) s' hs'

theorem commit_tmp_length (path : String) (s : ExtState) (h : acceptedInv s) :
    ((commit path s).tmp).length = s.accepted := by
  unfold acceptedInv at h
  unfold commit
  cases hd : s.date <;> rw [hd] at h <;> simp_all

/-- C3 counterexample: the file with one good date line followed by an
include directive has exactly one accepted, normal-interpretable date
line, yet zero segments are appended to the shared result collection. -/
theorem commit_count_include_cex :
    ((runLines "f.adoc" SEGMENT_DATE 0 initSt
        [":segment-date: 2024-06-13", "include::x[]"]).1).accepted = 1 ∧
    ((put_segments "f.adoc" SEGMENT_DATE
        [":segment-date: 2024-06-13", "include::x[]"] []).1).length = 0 :=
  ⟨by decide, by decide⟩

/-- C3, as amended: for a file processed to completion (no halt on an
include directive), the number of segments appended to the shared result
collection equals the number of date-metadata lines that parsed while
normal-interpretable; a file halted by an include appends none. -/
theorem segment_count_eq_accepted (path pre : String) (lines : List String)
    (segments : List Segment)
    (h : (runLines path pre 0 initSt lines).2 = false) :
    ((put_segments path pre lines segments).1).length =
      segments.length + ((runLines path pre 0 initSt lines).1).accepted := by
  have hinv : acceptedInv ((runLines path pre 0 initSt lines).1) :=
    acceptedInv_runLines path pre lines 0 initSt (by simp [acceptedInv, initSt])
  unfold put_segments
  cases hr : runLines path pre 0 initSt lines with
  | mk s b =>
    rw [hr] at h hinv
    simp only at h hinv
    cases b with
    | true => simp at h
    | false =>
      simp only [List.length_append]
      rw [commit_tmp_length path s hinv]

/-- Witness for segment_count_eq_accepted: Scenario A runs to completion
and appends two segments, one per accepted date line. -/
theorem segment_count_eq_accepted_witness :
    (runLines "f.adoc" SEGMENT_DATE 0 initSt
        ["= Title", ":segment-date: 2024-06-13", "hello",
         ":segment-date: 2024-06-14", "world"]).2 = false ∧
    ((put_segments "f.adoc" SEGMENT_DATE
        ["= Title", ":segment-date: 2024-06-13", "hello",
         ":segment-date: 2024-06-14", "world"] []).1).length =
      ([] : List Segment).length +
        ((runLines "f.adoc" SEGMENT_DATE 0 initSt
            ["= Title", ":segment-date: 2024-06-13", "hello",
             ":segment-date: 2024-06-14", "world"]).1).accepted :=
  ⟨by decide,
   segment_count_eq_accepted "f.adoc" SEGMENT_DATE
     ["= Title", ":segment-date: 2024-06-13", "hello",
      ":segment-date: 2024-06-14", "world"] [] (by decide)⟩

/-- The title invariant: every segment buffered so far either was
committed before any heading was resolved (no title) or carries the title
resolved at the time of its commit, which is the current one, since the
title never changes once set. -/
def titleInv (s : ExtState) : Prop :=
  ∀ seg ∈ s.tmp, seg.title = none ∨ seg.title = s.title

theorem titleInv_commit (path : String) (s : ExtState) (h : titleInv s) :
    titleInv (commit path s) := by
  intro seg hseg
  unfold commit at hseg ⊢
  cases hd : s.date with
  | none =>
    simp only [hd] at hseg ⊢
    exact h seg hseg
  | some d =>
    simp only [hd] at hseg ⊢
    rcases List.mem_append.mp hseg with h1 | h2
    · exact h seg h1
    · have heq : seg = ⟨path, s.title, d, s.content⟩ := by simpa using h2
      right; rw [heq]

theorem titleInv_titleStep (line : String) (s : ExtState) (h : titleInv s) :
    titleInv (titleStep line s) := by
  unfold titleStep
  by_cases hc : (strStarts line "= " && s.title.isNone) = true
  · rw [if_pos hc]
    have hnone : s.title = none :=
      Option.isNone_iff_eq_none.mp ((Bool.and_eq_true _ _).mp hc).2
    intro seg hseg
    rcases h seg hseg with h1 | h1
    · exact Or.inl h1
    · rw [hnone] at h1; exact Or.inl h1
  · rw [if_neg hc]; exact h

theorem titleInv_dateStep (path pre : String) (i : Nat) (line : String) (s : ExtState)
    (h : titleInv s) : titleInv (dateStep path pre i line s) := by
  unfold dateStep
  by_cases hstart : strStarts line pre = true
  · rw [if_pos hstart]
    rcases hp : parseDate (strDrop line (strLen pre)) with _ | d <;> simp only [hp]
    · intro seg hseg
      exact h seg hseg
    · intro seg hseg
      have h2 := titleInv_commit path s h seg (by simpa using hseg)
      simpa using h2
  · rw [if_neg hstart]; exact h

theorem titleInv_interpPhase (path pre : String) (i : Nat) (line : String) (s : ExtState)
    (h : titleInv s) : titleInv ((interpPhase path pre i line s).1) := by
  unfold interpPhase
  split_ifs
  · exact titleInv_titleStep line s h
  · exact titleInv_dateStep path pre i line (titleStep line s) (titleInv_titleStep line s h)
  · exact h

theorem titleInv_markerPhase (line : String) (s : ExtState) (h : titleInv s) :
    titleInv (markerPhase line s) := by
  unfold titleInv at h ⊢
  rw [(markerPhase_skip line s).2.2.2.1, (markerPhase_skip line s).2.2.1]
  exact h

theorem titleInv_sectionPhase (line raw : String) (s : ExtState) (h : titleInv s) :
    titleInv ((sectionPhase line raw s).1) := by
  unfold titleInv at h ⊢
  rw [(sectionPhase_skip line raw s).2.2.1, (sectionPhase_skip line raw s).2.1]
  exact h

theorem titleInv_tailPhase (raw : String) (s : ExtState) (h : titleInv s) :
    titleInv (tailPhase raw s) := by
  unfold titleInv at h ⊢
  rw [(tailPhase_skip raw s).2.2.1, (tailPhase_skip raw s).2.1]
  exact h

theorem titleInv_lineStep (path pre : String) (i : Nat) (s : ExtState) (raw : String)
    (h : titleInv s) : titleInv ((lineStep path pre i s raw).1) := by
  unfold lineStep
  dsimp only
  have h1 := titleInv_markerPhase (effLine i raw) s h
  cases h2 : sectionPhase (effLine i raw) raw (markerPhase (effLine i raw) s) with
  | mk s2 b2 =>
    have hs2 : titleInv s2 := by
      have := titleInv_sectionPhase (effLine i raw) raw (markerPhase (effLine i raw) s) h1
      rw [h2] at this; exact this
    cases b2 with
    | true => simp only [h2]; exact hs2
    | false =>
      cases h3 : interpPhase path pre i (effLine i raw) s2 with
      | mk s3 b3 =>
        have hs3 : titleInv s3 := by
          have := titleInv_interpPhase path pre i (effLine i raw) s2 hs2
          rw [h3] at this; exact this
        cases b3 with
        | true => simp only [h2, h3]; exact hs3
        | false => simp only [h2, h3]; exact titleInv_tailPhase raw s3 hs3

theorem titleInv_runLines (path pre : String) :
    ∀ (lines : List String) (i : Nat) (s : ExtState),
      titleInv s → titleInv ((runLines path pre i s lines).1) := by
  intro lines
  induction lines with
  | nil => intro i s h; exact h
  | cons raw rest ih =>
    intro i s h
    unfold runLines
    cases hstep : lineStep path pre i s raw with
    | mk s' b =>
      have hs' : titleInv s' := by
        have := titleInv_lineStep path pre i s raw h
        rw [hstep] at this; exact this
      cases b with
      | true => exact hs'
      | false => exact ih (i + 1) s' hs'

/-- C6 counterexample: in a file whose heading line comes after the first
committed segment, that file does contain a normal-interpretable top-level
heading, yet the first emitted segment carries no title while the second
carries the heading's remainder. -/
theorem early_commit_title_cex :
    (put_segments "f.adoc" SEGMENT_DATE
        [":segment-date: 2024-06-13", "a", ":segment-date: 2024-06-14", "= Title"] []).1 =
      [⟨"f.adoc", none, ⟨2024, 6, 13⟩, [":segment-date: 2024-06-13", "a"]⟩,
       ⟨"f.adoc", some "Title", ⟨2024, 6, 14⟩,
         [":segment-date: 2024-06-14", "= Title"]⟩] := by
  decide

/-! Titles are stamped at commit time. The next lemmas establish the two
halves of that fact at the step level: the buffer only ever grows at its
end, any appended segment carries the title current at that step, and a
resolved title never changes again. -/

theorem commit_tmp_ext (path : String) (s : ExtState) :
    ∃ ext, (commit path s).tmp = s.tmp ++ ext ∧ ∀ seg ∈ ext, seg.title = s.title := by
  unfold commit
  cases hd : s.date with
  | none => exact ⟨[], by simp, by simp⟩
  | some d =>
    refine ⟨[⟨path, s.title, d, s.content⟩], by simp, ?_⟩
    intro seg hseg
    have heq : seg = ⟨path, s.title, d, s.content⟩ := by simpa using hseg
    rw [heq]

theorem titleStep_title_frozen (line : String) (s : ExtState) (t : String)
    (h : s.title = some t) : (titleStep line s).title = some t := by
  simp [titleStep, h]

theorem interpPhase_title_frozen (path pre : String) (i : Nat) (line : String) (s : ExtState)
    (t : String) (h : s.title = some t) :
    ((interpPhase path pre i line s).1).title = some t := by
  unfold interpPhase
  split_ifs
  · exact titleStep_title_frozen line s t h
  · exact ((dateStep_skip path pre i line (titleStep line s)).1).trans
      (titleStep_title_frozen line s t h)
  · exact h

theorem lineStep_title_frozen (path pre : String) (i : Nat) (s : ExtState) (raw : String)
    (t : String) (h : s.title = some t) :
    ((lineStep path pre i s raw).1).title = some t := by
  unfold lineStep
  dsimp only
  have h1 : (markerPhase (effLine i raw) s).title = some t :=
    ((markerPhase_skip (effLine i raw) s).2.2.1).trans h
  cases h2 : sectionPhase (effLine i raw) raw (markerPhase (effLine i raw) s) with
  | mk s2 b2 =>
    have hs2 : s2.title = some t := by
      have := (sectionPhase_skip (effLine i raw) raw (markerPhase (effLine i raw) s)).2.1
      rw [h2] at this
      exact this.trans h1
    cases b2 with
    | true => simp only [h2]; exact hs2
    | false =>
      cases h3 : interpPhase path pre i (effLine i raw) s2 with
      | mk s3 b3 =>
        have hs3 : s3.title = some t := by
          have := interpPhase_title_frozen path pre i (effLine i raw) s2 t hs2
          rw [h3] at this; exact this
        cases b3 with
        | true => simp only [h2, h3]; exact hs3
        | false => simp only [h2, h3]; exact ((tailPhase_skip raw s3).2.1).trans hs3

theorem dateStep_tmp_ext (path pre : String) (i : Nat) (line : String) (s : ExtState) :
    ∃ ext, (dateStep path pre i line s).tmp = s.tmp ++ ext ∧
      ∀ seg ∈ ext, seg.title = s.title := by
  unfold dateStep
  by_cases hstart : strStarts line pre = true
  · rw [if_pos hstart]
    rcases hp : parseDate (strDrop line (strLen pre)) with _ | d <;> simp only [hp]
    · exact ⟨[], by simp, by simp⟩
    · obtain ⟨ext, h1, h2⟩ := commit_tmp_ext path s
      exact ⟨ext, h1, h2⟩
  · rw [if_neg hstart]
    exact ⟨[], by simp, by simp⟩

theorem interpPhase_tmp_ext (path pre : String) (i : Nat) (line : String) (s : ExtState) :
    ∃ ext, ((interpPhase path pre i line s).1).tmp = s.tmp ++ ext ∧
      ∀ seg ∈ ext, seg.title = ((interpPhase path pre i line s).1).title := by
  unfold interpPhase
  split_ifs
  · refine ⟨[], ?_, ?_⟩
    · rw [List.append_nil]; exact (titleStep_skip line s).2.2.1
    · intro seg hseg; simp at hseg
  · obtain ⟨ext, h1, h2⟩ := dateStep_tmp_ext path pre i line (titleStep line s)
    refine ⟨ext, ?_, ?_⟩
    · dsimp only
      rw [h1, (titleStep_skip line s).2.2.1]
    · intro seg hseg
      dsimp only
      rw [(dateStep_skip path pre i line (titleStep line s)).1]
      exact h2 seg hseg
  · exact ⟨[], by simp, by simp⟩

theorem lineStep_tmp_ext (path pre : String) (i : Nat) (s : ExtState) (raw : String) :
    ∃ ext, ((lineStep path pre i s raw).1).tmp = s.tmp ++ ext ∧
      ∀ seg ∈ ext, seg.title = ((lineStep path pre i s raw).1).title := by
  unfold lineStep
  dsimp only
  have hm : (markerPhase (effLine i raw) s).tmp = s.tmp := (markerPhase_skip _ _).2.2.2.1
  cases h2 : sectionPhase (effLine i raw) raw (markerPhase (effLine i raw) s) with
  | mk s2 b2 =>
    have hs2 : s2.tmp = s.tmp := by
      have := (sectionPhase_skip (effLine i raw) raw (markerPhase (effLine i raw) s)).2.2.1
      rw [h2] at this
      exact this.trans hm
    cases b2 with
    | true =>
      refine ⟨[], ?_, ?_⟩
      · simp only [h2]; rw [List.append_nil]; exact hs2
      · intro seg hseg; simp at hseg
    | false =>
      cases h3 : interpPhase path pre i (effLine i raw) s2 with
      | mk s3 b3 =>
        obtain ⟨ext, hext, hextt⟩ := interpPhase_tmp_ext path pre i (effLine i raw) s2
        rw [h3] at hext hextt
        dsimp only at hext hextt
        cases b3 with
        | true =>
          refine ⟨ext, ?_, ?_⟩
          · simp only [h2, h3]; rw [hext, hs2]
          · intro seg hseg; simp only [h2, h3]; exact hextt seg hseg
        | false =>
          refine ⟨ext, ?_, ?_⟩
          · simp only [h2, h3]
            rw [(tailPhase_skip raw s3).2.2.1, hext, hs2]
          · intro seg hseg
            simp only [h2, h3]
            rw [(tailPhase_skip raw s3).2.1]
            exact hextt seg hseg

theorem runLines_nil (path pre : String) (i : Nat) (s : ExtState) :
    runLines path pre i s [] = (s, false) := rfl

theorem runLines_cons (path pre : String) (i : Nat) (s : ExtState) (raw : String)
    (rest : List String) :
    runLines path pre i s (raw :: rest) =
      (match lineStep path pre i s raw with
       | (s', true) => (s', true)
       | (s', false) => runLines path pre (i + 1) s' rest) := rfl

theorem runLines_tmp_prefix (path pre : String) :
    ∀ (lines : List String) (i : Nat) (s : ExtState),
      ∃ ext, ((runLines path pre i s lines).1).tmp = s.tmp ++ ext := by
  intro lines
  induction lines with
  | nil => intro i s; exact ⟨[], by simp [runLines_nil]⟩
  | cons raw rest ih =>
    intro i s
    rw [runLines_cons]
    obtain ⟨ext1, h1, _⟩ := lineStep_tmp_ext path pre i s raw
    cases hstep : lineStep path pre i s raw with
    | mk s' b =>
      rw [hstep] at h1
      dsimp only at h1
      cases b with
      | true => exact ⟨ext1, h1⟩
      | false =>
        obtain ⟨ext2, h2⟩ := ih (i + 1) s'
        exact ⟨ext1 ++ ext2, by rw [h2, h1, List.append_assoc]⟩

theorem runLines_title_ext (path pre : String) (t : String) :
    ∀ (lines : List String) (i : Nat) (s : ExtState), s.title = some t →
      ((runLines path pre i s lines).1).title = some t ∧
      ∃ ext, ((runLines path pre i s lines).1).tmp = s.tmp ++ ext ∧
        ∀ seg ∈ ext, seg.title = some t := by
  intro lines
  induction lines with
  | nil =>
    intro i s h
    exact ⟨h, [], by simp [runLines_nil], by simp⟩
  | cons raw rest ih =>
    intro i s h
    rw [runLines_cons]
    obtain ⟨ext1, h1, h1t⟩ := lineStep_tmp_ext path pre i s raw
    have hf := lineStep_title_frozen path pre i s raw t h
    cases hstep : lineStep path pre i s raw with
    | mk s' b =>
      rw [hstep] at h1 h1t hf
      dsimp only at h1 h1t hf
      have h1t' : ∀ seg ∈ ext1, seg.title = some t :=
        fun seg hseg => (h1t seg hseg).trans hf
      cases b with
      | true => exact ⟨hf, ext1, h1, h1t'⟩
      | false =>
        obtain ⟨htit, ext2, h2, h2t⟩ := ih (i + 1) s' hf
        refine ⟨htit, ext1 ++ ext2, ?_, ?_⟩
        · rw [h2, h1, List.append_assoc]
        · intro seg hseg
          rcases List.mem_append.mp hseg with hh | hh
          · exact h1t' seg hh
          · exact h2t seg hh

theorem runLines_append (path pre : String) (l2 : List String) :
    ∀ (l1 : List String) (i : Nat) (s : ExtState),
      (runLines path pre i s l1).2 = false →
      runLines path pre i s (l1 ++ l2) =
        runLines path pre (i + l1.length) ((runLines path pre i s l1).1) l2 := by
  intro l1
  induction l1 with
  | nil => intro i s _; simp [runLines_nil]
  | cons raw rest ih =>
    intro i s h
    rw [runLines_cons] at h
    rw [List.cons_append, runLines_cons, runLines_cons]
    cases hstep : lineStep path pre i s raw with
    | mk s' b =>
      simp only [hstep] at h ⊢
      cases b with
      | true => simp at h
      | false =>
        dsimp only at h ⊢
        simp only [List.length_cons]
        rw [ih (i + 1) s' h]
        have heq : i + 1 + rest.length = i + (rest.length + 1) := by omega
        rw [heq]

/-- C6, as amended: titles are assigned at commit time and never applied
retroactively. For every split of a file's lines into an earlier and a
later part (with the earlier part not halting): segments committed while
no heading had been resolved yet carry no title; the complete run's
emission starts with exactly the segments buffered at the split point,
unchanged, so earlier commits are never re-titled; and once the title is
resolved to some value by the first normal-interpretable heading line, it
never changes again and every segment emitted from the split point on
carries exactly that value. -/
theorem segment_title_commit_time (path pre : String) (lines1 lines2 : List String)
    (s1 s2 : ExtState)
    (hs1 : runLines path pre 0 initSt lines1 = (s1, false))
    (hs2 : runLines path pre 0 initSt (lines1 ++ lines2) = (s2, false)) :
    (s1.title = none → ∀ seg ∈ s1.tmp, seg.title = none) ∧
    ((put_segments path pre (lines1 ++ lines2) []).1).take s1.tmp.length = s1.tmp ∧
    (∀ t, s1.title = some t → s2.title = some t ∧
      ∀ seg ∈ ((put_segments path pre (lines1 ++ lines2) []).1).drop s1.tmp.length,
        seg.title = some t) := by
  have hc : (runLines path pre 0 initSt lines1).2 = false := by rw [hs1]
  have hcomp := runLines_append path pre lines2 lines1 0 initSt hc
  rw [hs1] at hcomp
  dsimp only at hcomp
  have hrun2 : runLines path pre (0 + lines1.length) s1 lines2 = (s2, false) := by
    rw [← hcomp, hs2]
  have hput : (put_segments path pre (lines1 ++ lines2) []).1 = (commit path s2).tmp := by
    unfold put_segments
    rw [hs2]
    simp
  obtain ⟨ext2, hext2, hext2t⟩ := commit_tmp_ext path s2
  refine ⟨?_, ?_, ?_⟩
  · intro hnone seg hseg
    have hinv : titleInv s1 := by
      have := titleInv_runLines path pre lines1 0 initSt
        (by intro sg hsg; simp [initSt] at hsg)
      rw [hs1] at this
      exact this
    rcases hinv seg hseg with hh | hh
    · exact hh
    · rw [hh, hnone]
  · obtain ⟨ext, hext⟩ := runLines_tmp_prefix path pre lines2 (0 + lines1.length) s1
    rw [hrun2] at hext
    dsimp only at hext
    rw [hput, hext2, hext, List.append_assoc, List.take_left]
  · intro t ht
    obtain ⟨htit, ext, hext, hextt⟩ :=
      runLines_title_ext path pre t lines2 (0 + lines1.length) s1 ht
    rw [hrun2] at htit hext
    dsimp only at htit hext
    refine ⟨htit, ?_⟩
    intro seg hseg
    rw [hput, hext2, hext, List.append_assoc, List.drop_left] at hseg
    rcases List.mem_append.mp hseg with hh | hh
    · exact hextt seg hh
    · rw [hext2t seg hh, htit]

/-- The state of put_segments after a heading line and one date line. -/
def titleSplitSt1 : ExtState :=
  { date := some ⟨2024, 6, 13⟩, content := [":segment-date: 2024-06-13"],
    title := some "T", tmp := [], commentBlock := false, commentSection := false,
    commentSectionBlock := false, diags := [], accepted := 1 }

/-- The state of put_segments after a further date line committed the
first segment, which carries the already-resolved title. -/
def titleSplitSt2 : ExtState :=
  { date := some ⟨2024, 6, 14⟩, content := [":segment-date: 2024-06-14"],
    title := some "T",
    tmp := [⟨"f.adoc", some "T", ⟨2024, 6, 13⟩, [":segment-date: 2024-06-13"]⟩],
    commentBlock := false, commentSection := false, commentSectionBlock := false,
    diags := [], accepted := 2 }

/-- Witness for segment_title_commit_time: the heading-first file split
between its two date lines. -/
theorem segment_title_commit_time_witness :
    runLines "f.adoc" SEGMENT_DATE 0 initSt ["= T", ":segment-date: 2024-06-13"] =
      (titleSplitSt1, false) ∧
    runLines "f.adoc" SEGMENT_DATE 0 initSt
        (["= T", ":segment-date: 2024-06-13"] ++ [":segment-date: 2024-06-14"]) =
      (titleSplitSt2, false) ∧
    ((titleSplitSt1.title = none → ∀ seg ∈ titleSplitSt1.tmp, seg.title = none) ∧
     ((put_segments "f.adoc" SEGMENT_DATE
         (["= T", ":segment-date: 2024-06-13"] ++ [":segment-date: 2024-06-14"])
         []).1).take titleSplitSt1.tmp.length = titleSplitSt1.tmp ∧
     (∀ t, titleSplitSt1.title = some t → titleSplitSt2.title = some t ∧
       ∀ seg ∈ ((put_segments "f.adoc" SEGMENT_DATE
           (["= T", ":segment-date: 2024-06-13"] ++ [":segment-date: 2024-06-14"])
           []).1).drop titleSplitSt1.tmp.length,
         seg.title = some t)) :=
  ⟨by decide, by decide,
   segment_title_commit_time "f.adoc" SEGMENT_DATE
     ["= T", ":segment-date: 2024-06-13"] [":segment-date: 2024-06-14"]
     titleSplitSt1 titleSplitSt2 (by decide) (by decide)⟩

/-- C2 counterexample: Scenario A's file does not yield bodies consisting
only of the content lines: the date-metadata line that opens a segment is
captured into that segment's body (topic.py appends the raw line whenever
a date is open, including the line that set the date). -/
theorem scenarioA_bodies_cex :
    (put_segments "f.adoc" SEGMENT_DATE
        ["= Title", ":segment-date: 2024-06-13", "hello",
         ":segment-date: 2024-06-14", "world"] []).1 ≠
      [⟨"f.adoc", some "Title", ⟨2024, 6, 13⟩, ["hello"]⟩,
       ⟨"f.adoc", some "Title", ⟨2024, 6, 14⟩, ["world"]⟩] := by
  decide

/-- C2, as amended: Scenario A's file yields exactly two segments titled
by the heading, dated 2024-06-13 and 2024-06-14, whose bodies are the
metadata line followed by the content line, and no diagnostics. -/
theorem scenarioA_segments :
    put_segments "f.adoc" SEGMENT_DATE
        ["= Title", ":segment-date: 2024-06-13", "hello",
         ":segment-date: 2024-06-14", "world"] [] =
      ([⟨"f.adoc", some "Title", ⟨2024, 6, 13⟩, [":segment-date: 2024-06-13", "hello"]⟩,
        ⟨"f.adoc", some "Title", ⟨2024, 6, 14⟩, [":segment-date: 2024-06-14", "world"]⟩],
       []) := by
  decide

/-! Lemmas about the date order used by the sort of main. -/

theorem segLE_trans (descending : Bool) (a b c : Segment)
    (h1 : segLE descending a b = true) (h2 : segLE descending b c = true) :
    segLE descending a c = true := by
  unfold segLE at *
  cases descending <;> simp_all <;> omega

theorem segLE_total (descending : Bool) (a b : Segment) :
    (segLE descending a b || segLE descending b a) = true := by
  unfold segLE
  cases descending <;> simp <;> omega

/-- C8: the sort of main is stable within equal dates under both flag
values — filtering the sorted list down to any one date returns exactly
the segments of that date in their original discovery order — and the
output is ordered by date in the requested direction, so the descending
flag reverses relative order only between distinct dates. -/
theorem sort_stable_ties (descending : Bool) (d : Date) (l : List Segment) :
    (sortSegments descending l).filter (fun s => decide (s.date = d)) =
      l.filter (fun s => decide (s.date = d)) ∧
    List.Pairwise (fun a b => segLE descending a b = true) (sortSegments descending l) := by
  have htrans : ∀ a b c : Segment, segLE descending a b = true →
      segLE descending b c = true → segLE descending a c = true :=
    segLE_trans descending
  have htotal : ∀ a b : Segment, (segLE descending a b || segLE descending b a) = true :=
    segLE_total descending
  constructor
  · have hpair : List.Pairwise (fun a b => segLE descending a b = true)
        (l.filter (fun s => decide (s.date = d))) := by
      apply List.pairwise_of_forall_mem_list
      intro a ha b hb
      have had : a.date = d := of_decide_eq_true (List.mem_filter.mp ha).2
      have hbd : b.date = d := of_decide_eq_true (List.mem_filter.mp hb).2
      unfold segLE
      cases descending <;> simp [had, hbd]
    have hsub : (l.filter (fun s => decide (s.date = d))).Sublist
        (List.mergeSort l (segLE descending)) :=
      List.sublist_mergeSort htrans htotal hpair (List.filter_sublist l)
    have hsub2 : (l.filter (fun s => decide (s.date = d))).Sublist
        ((List.mergeSort l (segLE descending)).filter (fun s => decide (s.date = d))) := by
      have h1 := List.Sublist.filter (fun s => decide (s.date = d)) hsub
      rwa [List.filter_eq_self.mpr (fun a ha => (List.mem_filter.mp ha).2)] at h1
    have hperm : ((List.mergeSort l (segLE descending)).filter
          (fun s => decide (s.date = d))).Perm
        (l.filter (fun s => decide (s.date = d))) :=
      (List.mergeSort_perm l (segLE descending)).filter (fun s => decide (s.date = d))
    exact (List.Sublist.eq_of_length hsub2 hperm.length_eq.symm).symm
  · exact List.sorted_mergeSort htrans htotal l

end Rbr
